import Mathlib

/-!
Verification development for the terminal fireworks simulator
(src/cool_fireworks.py).

Modelling conventions:
* Python floats are modelled as real numbers with exact arithmetic.
* The shared random source (the random module, seeded once at startup) is
  modelled as a stream g of raw draws in the half-open unit interval,
  together with an index that advances by one for every call to the
  source.  Each library call is translated by mapping the raw draw into
  the requested range:
  random.uniform(a, b)      = a + (b - a) * v
  random.randint(a, b)      = a + floor (v * (b - a + 1))
  random.randrange(n)       = floor (v * n)    (as a natural number)
  random.choice(seq)        = seq[floor (v * len seq)]
  Stateful operations take the stream and the current index and return
  their result together with the index after the draws they consumed.
* Python int() truncates toward zero; pyInt models this.
* Machine integers are modelled as Int (the CLI can produce negative
  sizes), counters as Nat.
-/

namespace CoolFireworks

noncomputable section

/-- A raw-draw stream is valid when every draw lies in the unit
half-open interval, as random.random does. -/
def ValidStream (g : ℕ → ℝ) : Prop := ∀ n, 0 ≤ g n ∧ g n < 1

/-- Model of random.uniform(a, b) applied to one raw draw v. -/
def uniformD (a b v : ℝ) : ℝ := a + (b - a) * v

/-- Model of random.randint(a, b) (inclusive ends) applied to one raw
draw v. -/
def randintD (a b : ℤ) (v : ℝ) : ℤ := a + ⌊v * ((b : ℝ) - (a : ℝ) + 1)⌋

/-- Model of random.randrange(n) applied to one raw draw v. -/
def randrangeD (n : ℕ) (v : ℝ) : ℕ := (⌊v * (n : ℝ)⌋).toNat

/-- Model of Python int() on a real: truncation toward zero. -/
def pyInt (r : ℝ) : ℤ := if 0 ≤ r then ⌊r⌋ else ⌈r⌉

/-- The fixed palette of bright ANSI 256 colour codes (PALETTE in the
source). -/
def PALETTE : List ℕ := [196, 202, 208, 214, 220, 226, 190, 118, 51, 45, 39, 33, 201, 207]

/-- The four spark glyphs render chooses from. -/
def GLYPHS : List Char := ['*', '•', '·', '✶']

/-- A single spark in the firework explosion (class Particle). -/
structure Particle where
  x : ℝ
  y : ℝ
  vx : ℝ
  vy : ℝ
  life : ℝ
  colour : ℕ

/-- Particle.step(gravity, damping): advance the particle by one frame,
returning the updated particle and the alive flag.  Mirrors the source:
an expired particle is returned unchanged with False; otherwise the
position is advanced by the pre-update velocity, the velocity is damped
(with gravity added to vy), life decreases by one, and the particle is
alive iff its new life is positive and its new y is non-negative. -/
def Particle.step (p : Particle) (gravity damping : ℝ) : Particle × Bool :=
  if p.life ≤ 0 then (p, false)
  else
    let x := p.x + p.vx
    let y := p.y + p.vy
    let vx := p.vx * damping
    let vy := p.vy * damping + gravity
    let life := p.life - 1
    (⟨x, y, vx, vy, life, p.colour⟩, decide (life > 0 ∧ y ≥ 0))

/-- Reference definition of Particle advance, transcribed from the
specification text (section 4.1): if life is not positive, nothing
changes and the result is not-alive; otherwise position += velocity
using the pre-update velocity, then vx *= damping,
vy = vy * damping + gravity, life -= 1, and the report is
alive = (life > 0) AND (y ≥ 0) on the new values. -/
def advanceRef (p : Particle) (gravity damping : ℝ) : Particle × Bool :=
  if p.life ≤ 0 then (p, false)
  else
    let moved : Particle := ⟨p.x + p.vx, p.y + p.vy, p.vx, p.vy, p.life, p.colour⟩
    let damped : Particle :=
      ⟨moved.x, moved.y, moved.vx * damping, moved.vy * damping + gravity, moved.life, moved.colour⟩
    let aged : Particle :=
      ⟨damped.x, damped.y, damped.vx, damped.vy, damped.life - 1, damped.colour⟩
    (aged, decide (aged.life > 0 ∧ aged.y ≥ 0))

/-- The simulation state (class FireworkShow). -/
structure FireworkShow where
  width : ℤ
  height : ℤ
  gravity : ℝ
  damping : ℝ
  sparks : ℕ
  particles : List Particle
  frame_counter : ℕ

/-- The generator loop of FireworkShow._create_explosion: emit count
particles at the shared centre (x, y), each consuming four draws
(angle, speed, life, colour index) in source order. -/
def createExplosionAux (x y : ℝ) (hue_shift : ℕ) (g : ℕ → ℝ) :
    ℕ → ℕ → List Particle × ℕ
  | 0, i => ([], i)
  | count + 1, i =>
      let angle := uniformD 0 (2 * Real.pi) (g i)
      let speed := uniformD 0.6 1.6 (g (i + 1))
      let vx := Real.cos angle * speed
      let vy := Real.sin angle * speed
      let life := randintD 18 40 (g (i + 2))
      let colour := PALETTE.getD ((hue_shift + randrangeD PALETTE.length (g (i + 3))) % PALETTE.length) 0
      let rest := createExplosionAux x y hue_shift g count (i + 4)
      (⟨x, y, vx, vy, (life : ℝ), colour⟩ :: rest.1, rest.2)

/-- FireworkShow._create_explosion(x, y, radius, hue_shift): the radius
argument is received but never used by the loop body, exactly as in the
source. -/
def FireworkShow.create_explosion (s : FireworkShow) (x y radius : ℝ)
    (hue_shift : ℕ) (g : ℕ → ℝ) (i : ℕ) : List Particle × ℕ :=
  createExplosionAux x y hue_shift g s.sparks i

/-- FireworkShow.spawn_firework(): draw radius, centre x, centre y and a
hue shift (four draws in source order), then extend the particle list
with one explosion of sparks particles. -/
def FireworkShow.spawn_firework (s : FireworkShow) (g : ℕ → ℝ) (i : ℕ) :
    FireworkShow × ℕ :=
  let radius := uniformD 6.0 12.0 (g i)
  let x := uniformD (0.2 * (s.width : ℝ)) (0.8 * (s.width : ℝ)) (g (i + 1))
  let y := uniformD (0.2 * (s.height : ℝ)) (0.45 * (s.height : ℝ)) (g (i + 2))
  let hue_shift := randrangeD PALETTE.length (g (i + 3))
  let res := s.create_explosion x y radius hue_shift g (i + 4)
  ({ s with particles := s.particles ++ res.1 }, res.2)

/-- The per-frame particle loop of FireworkShow.step: advance every
particle and keep exactly those whose step reported alive and whose
updated position lies inside the canvas. -/
def advanceParticles (gravity damping : ℝ) (w h : ℤ) : List Particle → List Particle
  | [] => []
  | p :: rest =>
      let r := p.step gravity damping
      let tail := advanceParticles gravity damping w h rest
      if r.2 then
        if 0 ≤ r.1.x ∧ r.1.x < (w : ℝ) ∧ 0 ≤ r.1.y ∧ r.1.y < (h : ℝ) then r.1 :: tail
        else tail
      else tail

/-- The draw-free tail of FireworkShow.step: rebuild the live collection
from the advanced survivors and increment the frame counter. -/
def FireworkShow.stepAdvance (s : FireworkShow) : FireworkShow :=
  { s with
    particles := advanceParticles s.gravity s.damping s.width s.height s.particles,
    frame_counter := s.frame_counter + 1 }

/-- FireworkShow.step(): the spawn test mirrors the source condition
"not self.particles or (self.frame_counter % random.randint(18, 26) == 0)",
including the short-circuit: when the collection is empty no modulus is
drawn.  Afterwards all particles are advanced and filtered and the frame
counter is incremented. -/
def FireworkShow.step (s : FireworkShow) (g : ℕ → ℝ) (i : ℕ) :
    FireworkShow × ℕ :=
  let spawned :=
    if s.particles.isEmpty then s.spawn_firework g i
    else if (s.frame_counter : ℤ) % randintD 18 26 (g i) = 0 then s.spawn_firework g (i + 1)
    else (s, i + 1)
  (spawned.1.stepAdvance, spawned.2)

/-- Modelled from the spec (claim C3 wording): a step that draws the
modulus on every call, before the spawn test, regardless of whether the
collection is empty.  Used only to compare the claimed behaviour with
the source behaviour. -/
def stepClaimC3 (s : FireworkShow) (g : ℕ → ℝ) (i : ℕ) : FireworkShow × ℕ :=
  let m := randintD 18 26 (g i)
  let spawned :=
    if s.particles.isEmpty ∨ (s.frame_counter : ℤ) % m = 0 then s.spawn_firework g (i + 1)
    else (s, i + 1)
  (spawned.1.stepAdvance, spawned.2)

/-- Write one cell of a row-major grid; out-of-range indices leave the
grid unchanged (List.set semantics, matching the guarded writes of
render). -/
def setCell {α : Type} (grid : List (List α)) (r c : ℕ) (v : α) : List (List α) :=
  grid.set r ((grid.getD r []).set c v)

/-- The particle loop of FireworkShow.render: for every particle whose
truncated position is in bounds, draw one glyph (one raw draw) and write
glyph and colour into the two co-indexed grids.  Off-canvas particles
consume no draw, as in the source. -/
def renderLoop (w h : ℤ) (g : ℕ → ℝ) :
    List Particle → List (List Char) → List (List (Option ℕ)) → ℕ →
    List (List Char) × List (List (Option ℕ)) × ℕ
  | [], canvas, cmap, i => (canvas, cmap, i)
  | p :: rest, canvas, cmap, i =>
      if 0 ≤ pyInt p.x ∧ pyInt p.x < w ∧ 0 ≤ pyInt p.y ∧ pyInt p.y < h then
        renderLoop w h g rest
          (setCell canvas (pyInt p.y).toNat (pyInt p.x).toNat
            (GLYPHS.getD (randrangeD GLYPHS.length (g i)) '*'))
          (setCell cmap (pyInt p.y).toNat (pyInt p.x).toNat (some p.colour)) (i + 1)
      else
        renderLoop w h g rest canvas cmap i

/-- The glyph grid and colour grid stay consistent: every cell is
either still blank or holds a glyph with a recorded colour.  This is
the joint shape the render particle loop preserves. -/
def CellsOK (canvas : List (List Char)) (cmap : List (List (Option ℕ))) : Prop :=
  ∀ r c, (canvas.getD r []).getD c ' ' = ' ' ∨
    ((canvas.getD r []).getD c ' ' ∈ GLYPHS ∧
      ∃ k, (cmap.getD r []).getD c none = some k)

/-- One cell of FireworkShow._format_canvas: a cell with no recorded
colour, or holding a blank, renders as its bare character; otherwise the
glyph is wrapped in the 256-colour ANSI escape and a reset. -/
def cellStr (ch : Char) (colour : Option ℕ) : String :=
  match colour with
  | none => String.singleton ch
  | some c =>
      if ch = ' ' then String.singleton ch
      else ("\x1b[38;5;" ++ toString c ++ "m" ++ String.singleton ch ++ "\x1b[0m")

/-- One line of FireworkShow._format_canvas: the concatenation of the
cells of one row, pairing the glyph row with the colour row. -/
def formatRow (row : List Char) (crow : List (Option ℕ)) : String :=
  String.join ((row.zip crow).map (fun pc => cellStr pc.1 pc.2))

/-- The list of formatted lines of FireworkShow._format_canvas, before
they are joined with newlines. -/
def canvasLines (canvas : List (List Char)) (cmap : List (List (Option ℕ))) :
    List String :=
  (canvas.zip cmap).map (fun rc => formatRow rc.1 rc.2)

/-- FireworkShow.render(): build the blank glyph and colour grids, run
the particle loop, and join the formatted rows with newlines.  The
returned triple carries the frame string, the (unchanged) show state and
the advanced draw index; the method reads but never assigns any field of
the show or of a particle. -/
def FireworkShow.render (s : FireworkShow) (g : ℕ → ℝ) (i : ℕ) :
    String × FireworkShow × ℕ :=
  let canvas := List.replicate s.height.toNat (List.replicate s.width.toNat ' ')
  let cmap := List.replicate s.height.toNat (List.replicate s.width.toNat (none : Option ℕ))
  let res := renderLoop s.width s.height g s.particles canvas cmap i
  (String.intercalate ("\n") (canvasLines res.1 res.2.1), s, res.2.2)

/-- The formatted lines of the frame FireworkShow.render produces (the
list that render joins with newlines). -/
def FireworkShow.renderLines (s : FireworkShow) (g : ℕ → ℝ) (i : ℕ) :
    List String :=
  let canvas := List.replicate s.height.toNat (List.replicate s.width.toNat ' ')
  let cmap := List.replicate s.height.toNat (List.replicate s.width.toNat (none : Option ℕ))
  let res := renderLoop s.width s.height g s.particles canvas cmap i
  canvasLines res.1 res.2.1

/-- The states of a FireworkShow reachable from construction by any
sequence of spawn_firework, step and render calls, each call drawing
from some valid stream at some position. -/
inductive Reachable (w h : ℤ) : FireworkShow → Prop
  | init (gravity damping : ℝ) (sparks : ℕ) :
      Reachable w h ⟨w, h, gravity, damping, sparks, [], 0⟩
  | spawn (s : FireworkShow) (g : ℕ → ℝ) (i : ℕ) (hg : ValidStream g)
      (hs : Reachable w h s) : Reachable w h (s.spawn_firework g i).1
  | step (s : FireworkShow) (g : ℕ → ℝ) (i : ℕ) (hg : ValidStream g)
      (hs : Reachable w h s) : Reachable w h (s.step g i).1
  | render (s : FireworkShow) (g : ℕ → ℝ) (i : ℕ) (hg : ValidStream g)
      (hs : Reachable w h s) : Reachable w h (s.render g i).2.1

/-- Model of str.lower, mapping Char.toLower over the characters
(implemented structurally so concrete flags evaluate). -/
def pyLower (s : String) : String := String.mk (s.data.map Char.toLower)

/-- Model of str.strip with no argument: remove leading and trailing
whitespace. -/
def pyStrip (s : String) : String :=
  String.mk (((s.data.dropWhile Char.isWhitespace).reverse.dropWhile Char.isWhitespace).reverse)

/-- Accumulate the digits of a numeral character list (helper for
pyParseInt). -/
def digitsToNat (l : List Char) : ℕ :=
  l.foldl (fun acc c => 10 * acc + (c.toNat - 48)) 0

/-- Model of Python int() on a string: optional surrounding whitespace,
an optional single sign, then one or more ASCII digits; anything else
raises ValueError, modelled as none. -/
def pyParseInt (s : String) : Option ℤ :=
  match (pyStrip s).data with
  | '-' :: rest =>
      if rest ≠ [] ∧ rest.all Char.isDigit then some (-(digitsToNat rest : ℤ)) else none
  | '+' :: rest =>
      if rest ≠ [] ∧ rest.all Char.isDigit then some ((digitsToNat rest : ℤ)) else none
  | cs =>
      if cs ≠ [] ∧ cs.all Char.isDigit then some ((digitsToNat cs : ℤ)) else none

/-- Model of str.split("x", 1) followed by unpacking into exactly two
names: none when the string contains no separator (the unpacking raises
ValueError), otherwise the text before the first x and everything after
it. -/
def splitOnceX (s : String) : Option (String × String) :=
  if s.data.any (fun c => c == 'x') then
    some (String.mk (s.data.takeWhile (fun c => c != 'x')),
      String.mk ((s.data.dropWhile (fun c => c != 'x')).tail))
  else none

/-- The error message of the ArgumentTypeError detect_size raises. -/
def sizeErrorMsg : String := "Size must be WIDTHxHEIGHT or \x27auto\x27."

/-- The non-auto branch of detect_size: lower-case the flag, split on
the first x, parse both halves as ints; any failure raises the size
error.  The parsed pair is returned verbatim, with no further
validation. -/
def parseExplicitSize (size_flag : String) : Except String (ℤ × ℤ) :=
  match splitOnceX (pyLower size_flag) with
  | none => Except.error sizeErrorMsg
  | some (ws, hs) =>
      match pyParseInt ws, pyParseInt hs with
      | some w, some h => Except.ok (w, h)
      | _, _ => Except.error sizeErrorMsg

/-- detect_size(size_flag): an explicit flag is parsed as WIDTHxHEIGHT;
"auto" applies the floors max 40 / max 15 to the detected terminal size
minus a one-cell margin.  The term argument models the result of
shutil.get_terminal_size((80, 24)), which is external input (the
fallback (80, 24) is applied inside that call). -/
def detect_size (term : ℤ × ℤ) (size_flag : String) : Except String (ℤ × ℤ) :=
  if size_flag ≠ "auto" then parseExplicitSize size_flag
  else Except.ok (max 40 (term.1 - 1), max 15 (term.2 - 1))

/-- The frame loop of main(): repeatedly step then render, collecting
the rendered frame strings, threading the single shared draw stream
through every call in program order. -/
def runShowAux (g : ℕ → ℝ) : ℕ → FireworkShow → ℕ → List String × ℕ
  | 0, _, i => ([], i)
  | n + 1, s, i =>
      let st := s.step g i
      let rd := st.1.render g st.2
      let rest := runShowAux g n rd.2.1 rd.2.2
      (rd.1 :: rest.1, rest.2)

/-- A full run of the show as main performs it: construct
FireworkShow(width, height) with the default gravity 0.12, damping 0.92
and sparks 120, then render the requested number of frames. -/
def runShow (w h : ℤ) (frames : ℕ) (g : ℕ → ℝ) (i : ℕ) : List String × ℕ :=
  runShowAux g frames ⟨w, h, 0.12, 0.92, 120, [], 0⟩ i

/-- main() up to its output effects: detect the size (an invalid
explicit size propagates the ArgumentTypeError before any frame is
produced), then run the show.  The stream g models the shared random
source after the optional random.seed call. -/
def mainModel (term : ℤ × ℤ) (frames : ℕ) (size_flag : String)
    (g : ℕ → ℝ) : Except String (List String) :=
  match detect_size term size_flag with
  | Except.error e => Except.error e
  | Except.ok wh => Except.ok (runShow wh.1 wh.2 frames g 0).1

end

/-! Basic range lemmas for the draw primitives. -/

theorem uniformD_le (a b v : ℝ) (hab : a ≤ b) (h0 : 0 ≤ v) (h1 : v < 1) :
    a ≤ uniformD a b v ∧ uniformD a b v ≤ b := by
  unfold uniformD
  constructor
  · nlinarith
  · nlinarith

theorem uniformD_lt (a b v : ℝ) (hab : a < b) (h0 : 0 ≤ v) (h1 : v < 1) :
    a ≤ uniformD a b v ∧ uniformD a b v < b := by
  unfold uniformD
  constructor
  · nlinarith
  · nlinarith

theorem randintD_mem (a b : ℤ) (v : ℝ) (hab : a ≤ b) (h0 : 0 ≤ v) (h1 : v < 1) :
    a ≤ randintD a b v ∧ randintD a b v ≤ b := by
  unfold randintD
  have hba : (1 : ℝ) ≤ (b : ℝ) - (a : ℝ) + 1 := by
    have : (a : ℝ) ≤ (b : ℝ) := by exact_mod_cast hab
    linarith
  constructor
  · have : (0 : ℤ) ≤ ⌊v * ((b : ℝ) - (a : ℝ) + 1)⌋ :=
      Int.floor_nonneg.mpr (mul_nonneg h0 (by linarith))
    omega
  · have hlt : v * ((b : ℝ) - (a : ℝ) + 1) < ((b - a + 1 : ℤ) : ℝ) := by
      push_cast
      nlinarith [mul_pos (by linarith : (0 : ℝ) < 1 - v)
        (by linarith : (0 : ℝ) < (b : ℝ) - (a : ℝ) + 1)]
    have := Int.floor_lt.mpr hlt
    omega

theorem randrangeD_lt (n : ℕ) (v : ℝ) (hn : 0 < n) (h0 : 0 ≤ v) (h1 : v < 1) :
    randrangeD n v < n := by
  unfold randrangeD
  have hn' : (0 : ℝ) < (n : ℝ) := by exact_mod_cast hn
  have hlt : v * (n : ℝ) < ((n : ℤ) : ℝ) := by
    push_cast
    nlinarith [mul_pos (by linarith : (0 : ℝ) < 1 - v) hn']
  have := Int.floor_lt.mpr hlt
  omega

/-! Structural lemmas about the simulation operations. -/

theorem step_alive_pos (p : Particle) (gravity damping : ℝ)
    (hb : (p.step gravity damping).2 = true) : 0 < (p.step gravity damping).1.life := by
  rw [Particle.step] at hb ⊢
  by_cases hl : p.life ≤ 0
  · rw [if_pos hl] at hb
    exact absurd hb (by simp)
  · rw [if_neg hl] at hb ⊢
    simp only [decide_eq_true_eq] at hb
    exact hb.1

theorem advanceParticles_mem (gravity damping : ℝ) (w h : ℤ) (l : List Particle) :
    ∀ q ∈ advanceParticles gravity damping w h l,
      0 ≤ q.x ∧ q.x < (w : ℝ) ∧ 0 ≤ q.y ∧ q.y < (h : ℝ) ∧ 0 < q.life := by
  induction l with
  | nil => simp [advanceParticles]
  | cons p rest ih =>
      intro q hq
      rw [advanceParticles] at hq
      by_cases hb : (p.step gravity damping).2 = true
      · simp only [hb, if_true] at hq
        by_cases hc : 0 ≤ (p.step gravity damping).1.x ∧
            (p.step gravity damping).1.x < (w : ℝ) ∧
            0 ≤ (p.step gravity damping).1.y ∧ (p.step gravity damping).1.y < (h : ℝ)
        · rw [if_pos hc] at hq
          rcases List.mem_cons.mp hq with rfl | hq
          · exact ⟨hc.1, hc.2.1, hc.2.2.1, hc.2.2.2, step_alive_pos p gravity damping hb⟩
          · exact ih q hq
        · rw [if_neg hc] at hq
          exact ih q hq
      · simp only [hb] at hq
        simp only [Bool.false_eq_true, if_false] at hq
        exact ih q hq

theorem createExplosionAux_length (x y : ℝ) (hue : ℕ) (g : ℕ → ℝ) :
    ∀ count i, (createExplosionAux x y hue g count i).1.length = count := by
  intro count
  induction count with
  | zero => intro i; rw [createExplosionAux]; rfl
  | succ n ih =>
      intro i
      rw [createExplosionAux]
      simp [ih (i + 4)]

theorem createExplosionAux_idx (x y : ℝ) (hue : ℕ) (g : ℕ → ℝ) :
    ∀ count i, (createExplosionAux x y hue g count i).2 = i + 4 * count := by
  intro count
  induction count with
  | zero => intro i; rw [createExplosionAux]; rfl
  | succ n ih =>
      intro i
      rw [createExplosionAux]
      simp only [ih (i + 4)]
      ring

theorem createExplosionAux_mem (x y : ℝ) (hue : ℕ) (g : ℕ → ℝ) (hg : ValidStream g)
    (hhue : hue < PALETTE.length) :
    ∀ count i, ∀ q ∈ (createExplosionAux x y hue g count i).1,
      q.x = x ∧ q.y = y ∧
      (∃ n : ℤ, q.life = (n : ℝ) ∧ 18 ≤ n ∧ n ≤ 40) ∧
      (∃ θ sp : ℝ, 0.6 ≤ sp ∧ sp ≤ 1.6 ∧ q.vx = Real.cos θ * sp ∧ q.vy = Real.sin θ * sp) ∧
      (∃ ri : ℕ, ri < PALETTE.length ∧
        q.colour = PALETTE.getD ((hue + ri) % PALETTE.length) 0) := by
  intro count
  induction count with
  | zero => intro i q hq; rw [createExplosionAux] at hq; exact absurd hq (by simp)
  | succ n ih =>
      intro i q hq
      rw [createExplosionAux] at hq
      rcases List.mem_cons.mp hq with rfl | hq
      · refine ⟨rfl, rfl,
          ⟨randintD 18 40 (g (i + 2)), rfl,
            (randintD_mem 18 40 (g (i + 2)) (by norm_num) (hg (i + 2)).1 (hg (i + 2)).2).1,
            (randintD_mem 18 40 (g (i + 2)) (by norm_num) (hg (i + 2)).1 (hg (i + 2)).2).2⟩,
          ⟨uniformD 0 (2 * Real.pi) (g i), uniformD 0.6 1.6 (g (i + 1)),
            (uniformD_le 0.6 1.6 (g (i + 1)) (by norm_num) (hg (i + 1)).1 (hg (i + 1)).2).1,
            (uniformD_le 0.6 1.6 (g (i + 1)) (by norm_num) (hg (i + 1)).1 (hg (i + 1)).2).2,
            rfl, rfl⟩,
          ⟨randrangeD PALETTE.length (g (i + 3)),
            randrangeD_lt PALETTE.length (g (i + 3)) (by decide) (hg (i + 3)).1 (hg (i + 3)).2,
            rfl⟩⟩
      · exact ih (i + 4) q hq

theorem spawn_firework_particles (s : FireworkShow) (g : ℕ → ℝ) (i : ℕ) :
    (s.spawn_firework g i).1.particles =
      s.particles ++
        (createExplosionAux
          (uniformD (0.2 * (s.width : ℝ)) (0.8 * (s.width : ℝ)) (g (i + 1)))
          (uniformD (0.2 * (s.height : ℝ)) (0.45 * (s.height : ℝ)) (g (i + 2)))
          (randrangeD PALETTE.length (g (i + 3))) g s.sparks (i + 4)).1 := rfl

theorem spawn_firework_width (s : FireworkShow) (g : ℕ → ℝ) (i : ℕ) :
    (s.spawn_firework g i).1.width = s.width := rfl

theorem spawn_firework_height (s : FireworkShow) (g : ℕ → ℝ) (i : ℕ) :
    (s.spawn_firework g i).1.height = s.height := rfl

theorem spawn_firework_idx (s : FireworkShow) (g : ℕ → ℝ) (i : ℕ) :
    (s.spawn_firework g i).2 = i + 4 + 4 * s.sparks := by
  show (s.create_explosion _ _ _ _ g (i + 4)).2 = i + 4 + 4 * s.sparks
  rw [FireworkShow.create_explosion, createExplosionAux_idx]

theorem step_shape (s : FireworkShow) (g : ℕ → ℝ) (i : ℕ) :
    ∃ s' : FireworkShow, (s.step g i).1 = s'.stepAdvance ∧
      s'.width = s.width ∧ s'.height = s.height ∧
      s'.gravity = s.gravity ∧ s'.damping = s.damping := by
  rw [FireworkShow.step]
  by_cases he : s.particles.isEmpty = true
  · exact ⟨(s.spawn_firework g i).1, by simp [he], rfl, rfl, rfl, rfl⟩
  · by_cases hm : (s.frame_counter : ℤ) % randintD 18 26 (g i) = 0
    · exact ⟨(s.spawn_firework g (i + 1)).1, by simp [he, hm], rfl, rfl, rfl, rfl⟩
    · exact ⟨s, by simp [he, hm], rfl, rfl, rfl, rfl⟩

/-- C2: in every state reachable from construction (with positive
canvas dimensions) by spawn_firework, step and render calls drawing
from valid streams, every particle of the live collection lies inside
the canvas and has positive life. -/
theorem c2_reachable_invariant (w h : ℤ) (hw : 0 < w) (hh : 0 < h)
    (s : FireworkShow) (hr : Reachable w h s) :
    ∀ p ∈ s.particles,
      0 ≤ p.x ∧ p.x < (s.width : ℝ) ∧ 0 ≤ p.y ∧ p.y < (s.height : ℝ) ∧ 0 < p.life := by
  have hwr : (0 : ℝ) < (w : ℝ) := by exact_mod_cast hw
  have hhr : (0 : ℝ) < (h : ℝ) := by exact_mod_cast hh
  have main : s.width = w ∧ s.height = h ∧
      ∀ p ∈ s.particles,
        0 ≤ p.x ∧ p.x < (w : ℝ) ∧ 0 ≤ p.y ∧ p.y < (h : ℝ) ∧ 0 < p.life := by
    induction hr with
    | init gravity damping sparks => exact ⟨rfl, rfl, by simp⟩
    | spawn s g i hg hs ih =>
        obtain ⟨hW, hH, hinv⟩ := ih
        refine ⟨hW, hH, ?_⟩
        intro p hp
        rw [spawn_firework_particles, hW, hH] at hp
        rcases List.mem_append.mp hp with hp | hp
        · exact hinv p hp
        · have hmem := createExplosionAux_mem _ _ _ g hg
            (randrangeD_lt PALETTE.length (g (i + 3)) (by decide) (hg (i + 3)).1 (hg (i + 3)).2)
            s.sparks (i + 4) p hp
          obtain ⟨hx, hy, ⟨n, hlife, hn18, _⟩, _, _⟩ := hmem
          have hxb := uniformD_le (0.2 * (w : ℝ)) (0.8 * (w : ℝ)) (g (i + 1))
            (by nlinarith) (hg (i + 1)).1 (hg (i + 1)).2
          have hyb := uniformD_le (0.2 * (h : ℝ)) (0.45 * (h : ℝ)) (g (i + 2))
            (by nlinarith) (hg (i + 2)).1 (hg (i + 2)).2
          refine ⟨?_, ?_, ?_, ?_, ?_⟩
          · rw [hx]; nlinarith [hxb.1]
          · rw [hx]; nlinarith [hxb.2]
          · rw [hy]; nlinarith [hyb.1]
          · rw [hy]; nlinarith [hyb.2]
          · rw [hlife]
            have hn : (0 : ℤ) < n := by omega
            exact_mod_cast hn
    | step s g i hg hs ih =>
        obtain ⟨s', hstep, hw', hh', _, _⟩ := step_shape s g i
        rw [hstep]
        refine ⟨hw'.trans ih.1, hh'.trans ih.2.1, ?_⟩
        intro p hp
        have := advanceParticles_mem s'.gravity s'.damping s'.width s'.height s'.particles p hp
        rw [hw', ih.1, hh', ih.2.1] at this
        exact this
    | render s g i hg hs ih => exact ih
  rw [main.1, main.2.1]
  exact main.2.2

/-- C2 witness: a concrete reachable state, obtained by one
spawn_firework call on a freshly constructed 10 by 10 show with the
all-zero valid stream, satisfies the invariant. -/
theorem c2_witness :
    (0 : ℤ) < 10 ∧ ValidStream (fun _ => 0) ∧
    (∀ p ∈ ((⟨10, 10, 0.12, 0.92, 120, [], 0⟩ : FireworkShow).spawn_firework
        (fun _ => 0) 0).1.particles,
      0 ≤ p.x ∧
        p.x < ((((⟨10, 10, 0.12, 0.92, 120, [], 0⟩ : FireworkShow).spawn_firework
          (fun _ => 0) 0).1.width : ℤ) : ℝ) ∧
        0 ≤ p.y ∧
        p.y < ((((⟨10, 10, 0.12, 0.92, 120, [], 0⟩ : FireworkShow).spawn_firework
          (fun _ => 0) 0).1.height : ℤ) : ℝ) ∧
        0 < p.life) :=
  ⟨by norm_num, fun _ => ⟨le_refl 0, by norm_num⟩,
    c2_reachable_invariant 10 10 (by norm_num) (by norm_num) _
      (Reachable.spawn _ (fun _ => 0) 0 (fun _ => ⟨le_refl 0, by norm_num⟩)
        (Reachable.init 0.12 0.92 120))⟩

/-- C4: every spawn_firework call (with a valid stream and non-negative
canvas dimensions) appends exactly sparks new particles to the live
collection; each new particle has an integer life in [18, 40], velocity
cos(angle) * speed, sin(angle) * speed for some angle and a speed in
[0.6, 1.6] (hence squared magnitude in [0.36, 2.56]), a colour equal to
palette[(hue_shift + random_index) mod palette_length] for indices in
the palette range, and all of them share one centre (x, y) with x in
[0.2 * width, 0.8 * width] and y in [0.2 * height, 0.45 * height]. -/
theorem c4_spawn_adds_sparks (s : FireworkShow) (g : ℕ → ℝ) (i : ℕ)
    (hg : ValidStream g) (hw : 0 ≤ s.width) (hh : 0 ≤ s.height) :
    ∃ (newParts : List Particle) (cx cy : ℝ),
      (s.spawn_firework g i).1.particles = s.particles ++ newParts ∧
      newParts.length = s.sparks ∧
      0.2 * (s.width : ℝ) ≤ cx ∧ cx ≤ 0.8 * (s.width : ℝ) ∧
      0.2 * (s.height : ℝ) ≤ cy ∧ cy ≤ 0.45 * (s.height : ℝ) ∧
      ∀ p ∈ newParts,
        p.x = cx ∧ p.y = cy ∧
        (∃ n : ℤ, p.life = (n : ℝ) ∧ 18 ≤ n ∧ n ≤ 40) ∧
        (∃ θ sp : ℝ, 0.6 ≤ sp ∧ sp ≤ 1.6 ∧
          p.vx = Real.cos θ * sp ∧ p.vy = Real.sin θ * sp) ∧
        0.36 ≤ p.vx ^ 2 + p.vy ^ 2 ∧ p.vx ^ 2 + p.vy ^ 2 ≤ 2.56 ∧
        (∃ hs ri : ℕ, hs < PALETTE.length ∧ ri < PALETTE.length ∧
          p.colour = PALETTE.getD ((hs + ri) % PALETTE.length) 0) := by
  have hwr : (0 : ℝ) ≤ (s.width : ℝ) := by exact_mod_cast hw
  have hhr : (0 : ℝ) ≤ (s.height : ℝ) := by exact_mod_cast hh
  have hhue : randrangeD PALETTE.length (g (i + 3)) < PALETTE.length :=
    randrangeD_lt PALETTE.length (g (i + 3)) (by decide) (hg (i + 3)).1 (hg (i + 3)).2
  refine ⟨_, _, _, spawn_firework_particles s g i,
    createExplosionAux_length _ _ _ g s.sparks (i + 4),
    (uniformD_le _ _ (g (i + 1)) (by nlinarith) (hg (i + 1)).1 (hg (i + 1)).2).1,
    (uniformD_le _ _ (g (i + 1)) (by nlinarith) (hg (i + 1)).1 (hg (i + 1)).2).2,
    (uniformD_le _ _ (g (i + 2)) (by nlinarith) (hg (i + 2)).1 (hg (i + 2)).2).1,
    (uniformD_le _ _ (g (i + 2)) (by nlinarith) (hg (i + 2)).1 (hg (i + 2)).2).2,
    ?_⟩
  intro p hp
  have hmem := createExplosionAux_mem _ _ _ g hg hhue s.sparks (i + 4) p hp
  obtain ⟨hx, hy, hlife, ⟨θ, sp, hsp1, hsp2, hvx, hvy⟩, ⟨ri, hri, hcol⟩⟩ := hmem
  have hmag : p.vx ^ 2 + p.vy ^ 2 = sp ^ 2 := by
    rw [hvx, hvy]
    have hcs := Real.sin_sq_add_cos_sq θ
    ring_nf
    nlinarith [hcs]
  refine ⟨hx, hy, hlife, ⟨θ, sp, hsp1, hsp2, hvx, hvy⟩, ?_, ?_,
    ⟨randrangeD PALETTE.length (g (i + 3)), ri, hhue, hri, hcol⟩⟩
  · rw [hmag]; nlinarith
  · rw [hmag]; nlinarith

/-- C4 witness: the theorem applies to the concrete 10 by 10 show with
the all-zero valid stream. -/
theorem c4_witness :
    ValidStream (fun _ => 0) ∧ (0 : ℤ) ≤ 10 ∧
    (∃ (newParts : List Particle) (cx cy : ℝ),
      ((⟨10, 10, 0.12, 0.92, 120, [], 0⟩ : FireworkShow).spawn_firework
          (fun _ => 0) 0).1.particles =
        (⟨10, 10, 0.12, 0.92, 120, [], 0⟩ : FireworkShow).particles ++ newParts ∧
      newParts.length = (⟨10, 10, 0.12, 0.92, 120, [], 0⟩ : FireworkShow).sparks ∧
      0.2 * (((⟨10, 10, 0.12, 0.92, 120, [], 0⟩ : FireworkShow).width : ℤ) : ℝ) ≤ cx ∧
      cx ≤ 0.8 * (((⟨10, 10, 0.12, 0.92, 120, [], 0⟩ : FireworkShow).width : ℤ) : ℝ) ∧
      0.2 * (((⟨10, 10, 0.12, 0.92, 120, [], 0⟩ : FireworkShow).height : ℤ) : ℝ) ≤ cy ∧
      cy ≤ 0.45 * (((⟨10, 10, 0.12, 0.92, 120, [], 0⟩ : FireworkShow).height : ℤ) : ℝ) ∧
      ∀ p ∈ newParts,
        p.x = cx ∧ p.y = cy ∧
        (∃ n : ℤ, p.life = (n : ℝ) ∧ 18 ≤ n ∧ n ≤ 40) ∧
        (∃ θ sp : ℝ, 0.6 ≤ sp ∧ sp ≤ 1.6 ∧
          p.vx = Real.cos θ * sp ∧ p.vy = Real.sin θ * sp) ∧
        0.36 ≤ p.vx ^ 2 + p.vy ^ 2 ∧ p.vx ^ 2 + p.vy ^ 2 ≤ 2.56 ∧
        (∃ hs ri : ℕ, hs < PALETTE.length ∧ ri < PALETTE.length ∧
          p.colour = PALETTE.getD ((hs + ri) % PALETTE.length) 0)) :=
  ⟨fun _ => ⟨le_refl 0, by norm_num⟩, by norm_num,
    c4_spawn_adds_sparks ⟨10, 10, 0.12, 0.92, 120, [], 0⟩ (fun _ => 0) 0
      (fun _ => ⟨le_refl 0, by norm_num⟩) (by norm_num) (by norm_num)⟩

/-- C3 amended: the modulus is freshly drawn from the current stream
position on every step call on which the live collection is non-empty
(and lies in [18, 26]); when the collection is empty the or
short-circuits, no modulus is drawn, and a spawn is forced with the
draws starting at the current position.  A firework is spawned iff the
collection is empty or frame_counter modulo the fresh draw is zero. -/
theorem c3_spawn_policy (s : FireworkShow) (g : ℕ → ℝ) (i : ℕ) (hg : ValidStream g) :
    (s.particles = [] →
      s.step g i = ((s.spawn_firework g i).1.stepAdvance, (s.spawn_firework g i).2)) ∧
    (s.particles ≠ [] →
      (18 ≤ randintD 18 26 (g i) ∧ randintD 18 26 (g i) ≤ 26) ∧
      ((s.frame_counter : ℤ) % randintD 18 26 (g i) = 0 →
        s.step g i =
          ((s.spawn_firework g (i + 1)).1.stepAdvance, (s.spawn_firework g (i + 1)).2)) ∧
      ((s.frame_counter : ℤ) % randintD 18 26 (g i) ≠ 0 →
        s.step g i = (s.stepAdvance, i + 1))) := by
  refine ⟨fun hemp => ?_, fun hne => ⟨randintD_mem 18 26 (g i) (by norm_num) (hg i).1 (hg i).2,
    fun hm => ?_, fun hm => ?_⟩⟩
  · rw [FireworkShow.step]
    simp [hemp]
  · rw [FireworkShow.step]
    simp [List.isEmpty_iff, hne, hm]
  · rw [FireworkShow.step]
    simp [List.isEmpty_iff, hne, hm]

/-- C3 amended witness: at the concrete empty show the policy applies
with the all-zero valid stream. -/
theorem c3_spawn_policy_witness :
    ValidStream (fun _ => 0) ∧
    ((⟨1, 1, 0.12, 0.92, 0, [], 0⟩ : FireworkShow).particles = [] →
      FireworkShow.step ⟨1, 1, 0.12, 0.92, 0, [], 0⟩ (fun _ => 0) 0 =
        ((FireworkShow.spawn_firework ⟨1, 1, 0.12, 0.92, 0, [], 0⟩ (fun _ => 0) 0).1.stepAdvance,
          (FireworkShow.spawn_firework ⟨1, 1, 0.12, 0.92, 0, [], 0⟩ (fun _ => 0) 0).2)) :=
  ⟨fun _ => ⟨le_refl 0, by norm_num⟩,
    (c3_spawn_policy ⟨1, 1, 0.12, 0.92, 0, [], 0⟩ (fun _ => 0) 0
      (fun _ => ⟨le_refl 0, by norm_num⟩)).1⟩

/-- C1: Particle.step behaves exactly as the reference definition of
advance(gravity, damping) written in the specification: expired
particles are unchanged and not-alive; otherwise the position is
advanced by the pre-update velocity, then the velocity is damped with
gravity added to vy, life decreases by exactly one, and the report is
alive iff the new life is positive and the new y is non-negative. -/
theorem c1_step_matches_reference (p : Particle) (gravity damping : ℝ) :
    Particle.step p gravity damping = advanceRef p gravity damping := rfl

/-- C5 counterexample: for the spec scenario particle at (5, 5) with
zero velocity and life 1, under gravity 0.12 and damping 0.92, the
y-coordinate after Particle.step is 5, not the 5.12 the claim headline
asserts. -/
theorem c5_counterexample :
    (Particle.step ⟨5, 5, 0, 0, 1, 196⟩ 0.12 0.92).1.y = 5 ∧ (5 : ℝ) ≠ 5.12 := by
  constructor
  · rw [Particle.step, if_neg (by norm_num)]
    norm_num
  · norm_num

/-- C5 amended: for a Particle at (5.0, 5.0) with velocity (0, 0) and
life 1, advance(gravity 0.12, damping 0.92) reports not-alive and
leaves the position at (5.0, 5.0) (the position update uses the
pre-update velocity), with life 0 and vy updated to 0.12 for the next
step. -/
theorem c5_amended :
    Particle.step ⟨5, 5, 0, 0, 1, 196⟩ 0.12 0.92 = (⟨5, 5, 0, 0.12, 0, 196⟩, false) := by
  rw [Particle.step, if_neg (by norm_num)]
  simp only [Prod.mk.injEq, Particle.mk.injEq, decide_eq_false_iff_not, not_and, not_lt]
  norm_num

/-- C8: render does not mutate the simulation: the show state returned
alongside the frame string is exactly the input state, every field
included, for every show, stream and index; the only effects of render
beyond reading particle state are the glyph draws, reflected in the
returned draw index. -/
theorem c8_render_pure (s : FireworkShow) (g : ℕ → ℝ) (i : ℕ) :
    (s.render g i).2.1 = s := rfl

/-- C3 counterexample: starting from an empty show (width 1, height 1,
sparks 0) at draw position 0, the source step consumes four draws (no
modulus is drawn when the collection is empty, because the or
short-circuits), while the claimed behaviour, which always draws the
modulus first, consumes five; the two results differ. -/
theorem c3_counterexample :
    FireworkShow.step ⟨1, 1, 0.12, 0.92, 0, [], 0⟩ (fun _ => 0) 0 ≠
      stepClaimC3 ⟨1, 1, 0.12, 0.92, 0, [], 0⟩ (fun _ => 0) 0 := by
  intro h
  have h2 : (4 : ℕ) = 5 := congrArg Prod.snd h
  omega

/-! Render-shape lemmas. -/

theorem getD_set {α : Type} (l : List α) (i j : ℕ) (a d : α) :
    (l.set i a).getD j d = if i = j ∧ i < l.length then a else l.getD j d := by
  rw [List.getD_eq_getElem?_getD, List.getD_eq_getElem?_getD, List.getElem?_set]
  by_cases hij : i = j
  · subst hij
    by_cases hi : i < l.length
    · simp [hi]
    · have : l[i]? = none := by
        rw [List.getElem?_eq_none_iff]
        omega
      simp [hi, this]
  · simp [hij]

theorem setCell_length {α : Type} (grid : List (List α)) (r c : ℕ) (v : α) :
    (setCell grid r c v).length = grid.length := List.length_set _ _ _

theorem setCell_getD {α : Type} (grid : List (List α)) (r c : ℕ) (v : α) (r' : ℕ) :
    (setCell grid r c v).getD r' [] =
      if r = r' ∧ r < grid.length then (grid.getD r []).set c v else grid.getD r' [] :=
  getD_set grid r r' _ []

theorem setCell_row_length {α : Type} (grid : List (List α)) (r c : ℕ) (v : α) (r' : ℕ) :
    ((setCell grid r c v).getD r' []).length = (grid.getD r' []).length := by
  rw [setCell_getD]
  by_cases hx : r = r' ∧ r < grid.length
  · rw [if_pos hx, List.length_set, hx.1]
  · rw [if_neg hx]

theorem cellsOK_setCell (canvas : List (List Char)) (cmap : List (List (Option ℕ)))
    (hlen : canvas.length = cmap.length)
    (hrows : ∀ r, (canvas.getD r []).length = (cmap.getD r []).length)
    (hok : CellsOK canvas cmap) (r c : ℕ) (ch : Char) (hch : ch ∈ GLYPHS) (k : ℕ) :
    CellsOK (setCell canvas r c ch) (setCell cmap r c (some k)) := by
  intro r' c'
  rw [setCell_getD, setCell_getD, ← hlen]
  by_cases hr : r = r' ∧ r < canvas.length
  · rw [if_pos hr, if_pos hr, getD_set, getD_set, ← hrows r]
    by_cases hc : c = c' ∧ c < (canvas.getD r []).length
    · rw [if_pos hc, if_pos hc]
      exact Or.inr ⟨hch, k, rfl⟩
    · rw [if_neg hc, if_neg hc, hr.1]
      exact hok r' c'
  · rw [if_neg hr, if_neg hr]
    exact hok r' c'

theorem replicate_getD {α : Type} (n : ℕ) (a : α) (r : ℕ) (d : α) :
    (List.replicate n a).getD r d = if r < n then a else d := by
  rw [List.getD_eq_getElem?_getD, List.getElem?_replicate]
  by_cases hr : r < n
  · rw [if_pos hr, if_pos hr]
    rfl
  · rw [if_neg hr, if_neg hr]
    rfl

theorem renderLoop_props (w h : ℤ) (g : ℕ → ℝ) (l : List Particle) :
    ∀ (canvas : List (List Char)) (cmap : List (List (Option ℕ))) (i : ℕ),
      canvas.length = cmap.length →
      (∀ r, (canvas.getD r []).length = (cmap.getD r []).length) →
      CellsOK canvas cmap →
      (renderLoop w h g l canvas cmap i).1.length = canvas.length ∧
      (∀ r, ((renderLoop w h g l canvas cmap i).1.getD r []).length =
        (canvas.getD r []).length) ∧
      (renderLoop w h g l canvas cmap i).2.1.length = cmap.length ∧
      (∀ r, ((renderLoop w h g l canvas cmap i).2.1.getD r []).length =
        (cmap.getD r []).length) ∧
      CellsOK (renderLoop w h g l canvas cmap i).1 (renderLoop w h g l canvas cmap i).2.1 := by
  induction l with
  | nil =>
      intro canvas cmap i h1 h2 h3
      rw [renderLoop]
      exact ⟨rfl, fun _ => rfl, rfl, fun _ => rfl, h3⟩
  | cons p rest ih =>
      intro canvas cmap i h1 h2 h3
      rw [renderLoop]
      by_cases hb : 0 ≤ pyInt p.x ∧ pyInt p.x < w ∧ 0 ≤ pyInt p.y ∧ pyInt p.y < h
      · rw [if_pos hb]
        have hglyph : GLYPHS.getD (randrangeD GLYPHS.length (g i)) '*' ∈ GLYPHS := by
          rw [List.getD_eq_getElem?_getD]
          by_cases hi : randrangeD GLYPHS.length (g i) < GLYPHS.length
          · rw [List.getElem?_eq_getElem hi]
            exact List.getElem_mem _
          · rw [List.getElem?_eq_none_iff.mpr (by omega)]
            decide
        have := ih (setCell canvas (pyInt p.y).toNat (pyInt p.x).toNat
            (GLYPHS.getD (randrangeD GLYPHS.length (g i)) '*'))
          (setCell cmap (pyInt p.y).toNat (pyInt p.x).toNat (some p.colour)) (i + 1)
          (by rw [setCell_length, setCell_length, h1])
          (fun r => by rw [setCell_row_length, setCell_row_length]; exact h2 r)
          (cellsOK_setCell canvas cmap h1 h2 h3 _ _ _ hglyph p.colour)
        refine ⟨?_, fun r => ?_, ?_, fun r => ?_, this.2.2.2.2⟩
        · rw [this.1, setCell_length]
        · rw [this.2.1 r, setCell_row_length]
        · rw [this.2.2.1, setCell_length]
        · rw [this.2.2.2.1 r, setCell_row_length]
      · rw [if_neg hb]
        exact ih canvas cmap i h1 h2 h3

theorem cellStr_space (co : Option ℕ) : cellStr ' ' co = " " := by
  cases co with
  | none => rfl
  | some k =>
      rw [cellStr, if_pos rfl]
      rfl

theorem foldl_append_spaces :
    ∀ (n : ℕ) (acc : String),
      List.foldl (fun r s => r ++ s) acc (List.replicate n (" ")) =
        acc ++ String.mk (List.replicate n ' ') := by
  intro n
  induction n with
  | zero => intro acc; simp
  | succ m ih =>
      intro acc
      rw [List.replicate_succ, List.foldl_cons, ih, String.append_assoc]
      congr 1

theorem join_replicate_space (n : ℕ) :
    String.join (List.replicate n (" ")) = String.mk (List.replicate n ' ') := by
  have h := foldl_append_spaces n ("")
  rw [String.join]
  rw [h]
  exact String.empty_append _

/-- C7: render joins exactly height formatted lines with newlines; each
line is the concatenation of width cells, every cell being either a
single space or one glyph wrapped in the 256-colour ANSI escape and a
reset; and with no live particles every line is exactly width spaces. -/
theorem c7_render_shape (s : FireworkShow) (g : ℕ → ℝ) (i : ℕ)
    (hw : 0 ≤ s.width) (hh : 0 ≤ s.height) :
    (s.render g i).1 = String.intercalate ("\n") (s.renderLines g i) ∧
    ((s.renderLines g i).length : ℤ) = s.height ∧
    (∀ line ∈ s.renderLines g i, ∃ cells : List String,
      (cells.length : ℤ) = s.width ∧ line = String.join cells ∧
      ∀ cell ∈ cells, cell = " " ∨
        ∃ (k : ℕ) (ch : Char), ch ∈ GLYPHS ∧
          cell = "\x1b[38;5;" ++ toString k ++ "m" ++ String.singleton ch ++ "\x1b[0m") ∧
    (s.particles = [] →
      s.renderLines g i =
        List.replicate s.height.toNat (String.mk (List.replicate s.width.toNat ' '))) := by
  have hlen0 : (List.replicate s.height.toNat (List.replicate s.width.toNat ' ')).length =
      (List.replicate s.height.toNat (List.replicate s.width.toNat (none : Option ℕ))).length := by
    rw [List.length_replicate, List.length_replicate]
  have hrow0 : ∀ r,
      ((List.replicate s.height.toNat (List.replicate s.width.toNat ' ')).getD r []).length =
      ((List.replicate s.height.toNat
        (List.replicate s.width.toNat (none : Option ℕ))).getD r []).length := by
    intro r
    rw [replicate_getD, replicate_getD]
    by_cases hr : r < s.height.toNat
    · rw [if_pos hr, if_pos hr, List.length_replicate, List.length_replicate]
    · rw [if_neg hr, if_neg hr]
      rfl
  have hok0 : CellsOK (List.replicate s.height.toNat (List.replicate s.width.toNat ' '))
      (List.replicate s.height.toNat (List.replicate s.width.toNat (none : Option ℕ))) := by
    intro r c
    left
    rw [replicate_getD]
    by_cases hr : r < s.height.toNat
    · rw [if_pos hr, replicate_getD]
      by_cases hc : c < s.width.toNat
      · rw [if_pos hc]
      · rw [if_neg hc]
    · rw [if_neg hr]
      rfl
  have props := renderLoop_props s.width s.height g s.particles
    (List.replicate s.height.toNat (List.replicate s.width.toNat ' '))
    (List.replicate s.height.toNat (List.replicate s.width.toNat (none : Option ℕ)))
    i hlen0 hrow0 hok0
  set cv := (renderLoop s.width s.height g s.particles
    (List.replicate s.height.toNat (List.replicate s.width.toNat ' '))
    (List.replicate s.height.toNat (List.replicate s.width.toNat (none : Option ℕ))) i).1
  set cm := (renderLoop s.width s.height g s.particles
    (List.replicate s.height.toNat (List.replicate s.width.toNat ' '))
    (List.replicate s.height.toNat (List.replicate s.width.toNat (none : Option ℕ))) i).2.1
  have hcl : cv.length = s.height.toNat := by
    rw [props.1, List.length_replicate]
  have hml : cm.length = s.height.toNat := by
    rw [props.2.2.1, List.length_replicate]
  have hlines : s.renderLines g i = canvasLines cv cm := rfl
  have hlinlen : (s.renderLines g i).length = s.height.toNat := by
    rw [hlines, canvasLines, List.length_map, List.length_zip, hcl, hml, min_self]
  refine ⟨rfl, ?_, ?_, ?_⟩
  · rw [hlinlen]
    exact Int.toNat_of_nonneg hh
  · intro line hline
    obtain ⟨r, hr, hline_eq⟩ := List.mem_iff_getElem.mp hline
    have hrH : r < s.height.toNat := by omega
    have hrc : r < cv.length := by omega
    have hrm : r < cm.length := by omega
    have hrz : r < (cv.zip cm).length := by
      rw [List.length_zip]
      omega
    have h1 : (canvasLines cv cm)[r]? = some (formatRow cv[r] cm[r]) := by
      rw [canvasLines, List.getElem?_map, List.getElem?_eq_getElem hrz, List.getElem_zip]
      rfl
    have h2 : (canvasLines cv cm)[r]? = some line := by
      rw [← hlines, List.getElem?_eq_getElem hr, hline_eq]
    have hline2 : line = formatRow cv[r] cm[r] := Option.some.inj (h2.symm.trans h1)
    have hrowW : (cv[r]).length = s.width.toNat := by
      have hx : cv[r] = cv.getD r [] := by
        rw [List.getD_eq_getElem?_getD, List.getElem?_eq_getElem hrc]
        rfl
      rw [hx, props.2.1 r, replicate_getD, if_pos hrH, List.length_replicate]
    have hrowWm : (cm[r]).length = s.width.toNat := by
      have hx : cm[r] = cm.getD r [] := by
        rw [List.getD_eq_getElem?_getD, List.getElem?_eq_getElem hrm]
        rfl
      rw [hx, props.2.2.2.1 r, replicate_getD, if_pos hrH, List.length_replicate]
    refine ⟨((cv[r]).zip (cm[r])).map (fun pc => cellStr pc.1 pc.2), ?_, ?_, ?_⟩
    · rw [List.length_map, List.length_zip, hrowW, hrowWm, min_self]
      exact Int.toNat_of_nonneg hw
    · rw [hline2]
      rfl
    · intro cell hcell
      obtain ⟨cidx, hcidx, hcell_eq⟩ := List.mem_iff_getElem.mp hcell
      have hcellen : (((cv[r]).zip (cm[r])).map (fun pc => cellStr pc.1 pc.2)).length =
          s.width.toNat := by
        rw [List.length_map, List.length_zip, hrowW, hrowWm, min_self]
      have hcW : cidx < s.width.toNat := by omega
      have hcv : cidx < (cv[r]).length := by omega
      have hcm : cidx < (cm[r]).length := by omega
      have hcz : cidx < ((cv[r]).zip (cm[r])).length := by
        rw [List.length_zip]
        omega
      have hc1 : (((cv[r]).zip (cm[r])).map (fun pc => cellStr pc.1 pc.2))[cidx]? =
          some (cellStr (cv[r])[cidx] (cm[r])[cidx]) := by
        rw [List.getElem?_map, List.getElem?_eq_getElem hcz, List.getElem_zip]
        rfl
      have hc2 : (((cv[r]).zip (cm[r])).map (fun pc => cellStr pc.1 pc.2))[cidx]? =
          some cell := by
        rw [List.getElem?_eq_getElem hcidx, hcell_eq]
      have hcell2 : cell = cellStr (cv[r])[cidx] (cm[r])[cidx] :=
        Option.some.inj (hc2.symm.trans hc1)
      have hxr : cv.getD r [] = cv[r] := by
        rw [List.getD_eq_getElem?_getD, List.getElem?_eq_getElem hrc]
        rfl
      have hxm : cm.getD r [] = cm[r] := by
        rw [List.getD_eq_getElem?_getD, List.getElem?_eq_getElem hrm]
        rfl
      have hchar : (cv[r])[cidx] = (cv.getD r []).getD cidx ' ' := by
        rw [hxr, List.getD_eq_getElem?_getD, List.getElem?_eq_getElem hcv]
        rfl
      have hcol : (cm[r])[cidx] = (cm.getD r []).getD cidx none := by
        rw [hxm, List.getD_eq_getElem?_getD, List.getElem?_eq_getElem hcm]
        rfl
      rcases props.2.2.2.2 r cidx with hblank | ⟨hglyph, k, hk⟩
      · left
        rw [hcell2, hchar, hblank, cellStr_space]
      · right
        refine ⟨k, (cv.getD r []).getD cidx ' ', hglyph, ?_⟩
        have hne : (cv.getD r []).getD cidx ' ' ≠ ' ' := by
          intro hsp
          rw [hsp] at hglyph
          exact absurd hglyph (by decide)
        rw [hcell2, hchar, hcol, hk, cellStr, if_neg hne]
  · intro hpart
    have hempty : s.renderLines g i = canvasLines
        (List.replicate s.height.toNat (List.replicate s.width.toNat ' '))
        (List.replicate s.height.toNat (List.replicate s.width.toNat (none : Option ℕ))) := by
      rw [FireworkShow.renderLines, hpart, renderLoop]
    rw [hempty, canvasLines, List.zip_replicate', List.map_replicate]
    congr 1
    rw [formatRow, List.zip_replicate', List.map_replicate, cellStr_space]
    exact join_replicate_space s.width.toNat

/-- C7 witness: the theorem applies to the concrete empty 2 by 3 show
with the all-zero stream. -/
theorem c7_witness :
    (0 : ℤ) ≤ 2 ∧ (0 : ℤ) ≤ 3 ∧
    ((((⟨2, 3, 0.12, 0.92, 120, [], 0⟩ : FireworkShow).renderLines
      (fun _ => 0) 0).length : ℤ) = (⟨2, 3, 0.12, 0.92, 120, [], 0⟩ : FireworkShow).height) :=
  ⟨by norm_num, by norm_num,
    (c7_render_shape ⟨2, 3, 0.12, 0.92, 120, [], 0⟩ (fun _ => 0) 0
      (by norm_num) (by norm_num)).2.1⟩

/-! Determinism: every operation consumes a contiguous block of draws
and its result depends only on the draws it consumed. -/

theorem createExplosionAux_ext (x y : ℝ) (hue : ℕ) (g₁ g₂ : ℕ → ℝ) :
    ∀ count i, (∀ k, i ≤ k → k < i + 4 * count → g₁ k = g₂ k) →
      createExplosionAux x y hue g₁ count i = createExplosionAux x y hue g₂ count i := by
  intro count
  induction count with
  | zero => intro i _; rw [createExplosionAux, createExplosionAux]
  | succ n ih =>
      intro i hagree
      rw [createExplosionAux, createExplosionAux]
      rw [hagree i (le_refl i) (by omega), hagree (i + 1) (by omega) (by omega),
        hagree (i + 2) (by omega) (by omega), hagree (i + 3) (by omega) (by omega),
        ih (i + 4) (fun k hk1 hk2 => hagree k (by omega) (by omega))]

theorem spawn_firework_ext (s : FireworkShow) (g₁ g₂ : ℕ → ℝ) (i : ℕ)
    (hagree : ∀ k, i ≤ k → k < i + 4 + 4 * s.sparks → g₁ k = g₂ k) :
    s.spawn_firework g₁ i = s.spawn_firework g₂ i := by
  rw [FireworkShow.spawn_firework, FireworkShow.spawn_firework,
    FireworkShow.create_explosion, FireworkShow.create_explosion]
  rw [hagree (i + 1) (by omega) (by omega),
    hagree (i + 2) (by omega) (by omega), hagree (i + 3) (by omega) (by omega),
    createExplosionAux_ext _ _ _ g₁ g₂ s.sparks (i + 4)
      (fun k hk1 hk2 => hagree k (by omega) (by omega))]

theorem step_idx (s : FireworkShow) (g : ℕ → ℝ) (i : ℕ) :
    (s.step g i).2 =
      if s.particles.isEmpty then i + 4 + 4 * s.sparks
      else if (s.frame_counter : ℤ) % randintD 18 26 (g i) = 0 then i + 5 + 4 * s.sparks
      else i + 1 := by
  rw [FireworkShow.step]
  by_cases he : s.particles.isEmpty = true
  · simp only [he, if_true]
    exact spawn_firework_idx s g i
  · simp only [he]
    by_cases hm : (s.frame_counter : ℤ) % randintD 18 26 (g i) = 0
    · simp only [hm, if_true, Bool.false_eq_true, if_false]
      rw [spawn_firework_idx]
    · simp only [hm, Bool.false_eq_true, if_false]

theorem step_idx_ge (s : FireworkShow) (g : ℕ → ℝ) (i : ℕ) : i ≤ (s.step g i).2 := by
  rw [step_idx]
  by_cases he : s.particles.isEmpty = true
  · simp only [he, if_true]
    omega
  · simp only [he, Bool.false_eq_true, if_false]
    by_cases hm : (s.frame_counter : ℤ) % randintD 18 26 (g i) = 0
    · simp only [hm, if_true]
      omega
    · simp only [hm, if_false]
      omega

theorem step_ext (s : FireworkShow) (g₁ g₂ : ℕ → ℝ) (i : ℕ)
    (hagree : ∀ k, i ≤ k → k < (s.step g₁ i).2 → g₁ k = g₂ k) :
    s.step g₁ i = s.step g₂ i := by
  by_cases he : s.particles.isEmpty = true
  · have hidx : (s.step g₁ i).2 = i + 4 + 4 * s.sparks := by
      rw [step_idx, he, if_pos rfl]
    rw [FireworkShow.step, FireworkShow.step]
    simp only [he, if_true]
    rw [spawn_firework_ext s g₁ g₂ i (fun k hk1 hk2 => hagree k hk1 (by omega))]
  · have hlt : i < (s.step g₁ i).2 := by
      rw [step_idx]
      simp only [he, Bool.false_eq_true, if_false]
      by_cases hm : (s.frame_counter : ℤ) % randintD 18 26 (g₁ i) = 0
      · rw [if_pos hm]
        omega
      · rw [if_neg hm]
        omega
    have hgi : g₁ i = g₂ i := hagree i (le_refl i) hlt
    rw [FireworkShow.step, FireworkShow.step]
    simp only [he, Bool.false_eq_true, if_false]
    rw [← hgi]
    by_cases hm : (s.frame_counter : ℤ) % randintD 18 26 (g₁ i) = 0
    · have hidx : (s.step g₁ i).2 = i + 5 + 4 * s.sparks := by
        rw [step_idx]
        simp only [he, Bool.false_eq_true, if_false]
        rw [if_pos hm]
      rw [if_pos hm, if_pos hm]
      rw [spawn_firework_ext s g₁ g₂ (i + 1)
        (fun k hk1 hk2 => hagree k (by omega) (by omega))]
    · rw [if_neg hm, if_neg hm]

theorem renderLoop_idx_ge (w h : ℤ) (g : ℕ → ℝ) :
    ∀ (l : List Particle) canvas cmap (i : ℕ),
      i ≤ (renderLoop w h g l canvas cmap i).2.2 := by
  intro l
  induction l with
  | nil => intro canvas cmap i; rw [renderLoop]
  | cons p rest ih =>
      intro canvas cmap i
      rw [renderLoop]
      by_cases hb : 0 ≤ pyInt p.x ∧ pyInt p.x < w ∧ 0 ≤ pyInt p.y ∧ pyInt p.y < h
      · rw [if_pos hb]
        have := ih (setCell canvas (pyInt p.y).toNat (pyInt p.x).toNat
            (GLYPHS.getD (randrangeD GLYPHS.length (g i)) '*'))
          (setCell cmap (pyInt p.y).toNat (pyInt p.x).toNat (some p.colour)) (i + 1)
        omega
      · rw [if_neg hb]
        exact ih canvas cmap i

theorem renderLoop_ext (w h : ℤ) (g₁ g₂ : ℕ → ℝ) :
    ∀ (l : List Particle) canvas cmap (i : ℕ),
      (∀ k, i ≤ k → k < (renderLoop w h g₁ l canvas cmap i).2.2 → g₁ k = g₂ k) →
      renderLoop w h g₁ l canvas cmap i = renderLoop w h g₂ l canvas cmap i := by
  intro l
  induction l with
  | nil => intro canvas cmap i _; rw [renderLoop, renderLoop]
  | cons p rest ih =>
      intro canvas cmap i hagree
      rw [renderLoop, renderLoop]
      by_cases hb : 0 ≤ pyInt p.x ∧ pyInt p.x < w ∧ 0 ≤ pyInt p.y ∧ pyInt p.y < h
      · rw [if_pos hb, if_pos hb]
        have hfin : (renderLoop w h g₁ (p :: rest) canvas cmap i).2.2 =
            (renderLoop w h g₁ rest
              (setCell canvas (pyInt p.y).toNat (pyInt p.x).toNat
                (GLYPHS.getD (randrangeD GLYPHS.length (g₁ i)) '*'))
              (setCell cmap (pyInt p.y).toNat (pyInt p.x).toNat (some p.colour))
              (i + 1)).2.2 := by
          rw [renderLoop, if_pos hb]
        have hge := renderLoop_idx_ge w h g₁ rest
          (setCell canvas (pyInt p.y).toNat (pyInt p.x).toNat
            (GLYPHS.getD (randrangeD GLYPHS.length (g₁ i)) '*'))
          (setCell cmap (pyInt p.y).toNat (pyInt p.x).toNat (some p.colour)) (i + 1)
        have hgi : g₁ i = g₂ i := hagree i (le_refl i) (by omega)
        rw [← hgi]
        exact ih _ _ (i + 1) (fun k hk1 hk2 => hagree k (by omega) (by omega))
      · rw [if_neg hb, if_neg hb]
        have hfin : (renderLoop w h g₁ (p :: rest) canvas cmap i).2.2 =
            (renderLoop w h g₁ rest canvas cmap i).2.2 := by
          rw [renderLoop, if_neg hb]
        exact ih canvas cmap i (fun k hk1 hk2 => hagree k hk1 (by omega))

theorem render_idx_ge (s : FireworkShow) (g : ℕ → ℝ) (i : ℕ) :
    i ≤ (s.render g i).2.2 :=
  renderLoop_idx_ge s.width s.height g s.particles _ _ i

theorem render_ext (s : FireworkShow) (g₁ g₂ : ℕ → ℝ) (i : ℕ)
    (hagree : ∀ k, i ≤ k → k < (s.render g₁ i).2.2 → g₁ k = g₂ k) :
    s.render g₁ i = s.render g₂ i := by
  rw [FireworkShow.render, FireworkShow.render,
    renderLoop_ext s.width s.height g₁ g₂ s.particles _ _ i hagree]

theorem runShowAux_idx_ge (g : ℕ → ℝ) :
    ∀ (n : ℕ) (s : FireworkShow) (i : ℕ), i ≤ (runShowAux g n s i).2 := by
  intro n
  induction n with
  | zero => intro s i; rw [runShowAux]
  | succ m ih =>
      intro s i
      rw [runShowAux]
      have h1 := step_idx_ge s g i
      have h2 := render_idx_ge (s.step g i).1 g (s.step g i).2
      have h3 := ih ((s.step g i).1.render g (s.step g i).2).2.1
        ((s.step g i).1.render g (s.step g i).2).2.2
      omega

theorem runShowAux_ext (g₁ g₂ : ℕ → ℝ) :
    ∀ (n : ℕ) (s : FireworkShow) (i : ℕ),
      (∀ k, i ≤ k → k < (runShowAux g₁ n s i).2 → g₁ k = g₂ k) →
      runShowAux g₁ n s i = runShowAux g₂ n s i := by
  intro n
  induction n with
  | zero => intro s i _; rw [runShowAux, runShowAux]
  | succ m ih =>
      intro s i hagree
      have hfin : (runShowAux g₁ (m + 1) s i).2 =
          (runShowAux g₁ m ((s.step g₁ i).1.render g₁ (s.step g₁ i).2).2.1
            ((s.step g₁ i).1.render g₁ (s.step g₁ i).2).2.2).2 := by
        rw [runShowAux]
      have h1 := step_idx_ge s g₁ i
      have h2 := render_idx_ge (s.step g₁ i).1 g₁ (s.step g₁ i).2
      have h3 := runShowAux_idx_ge g₁ m ((s.step g₁ i).1.render g₁ (s.step g₁ i).2).2.1
        ((s.step g₁ i).1.render g₁ (s.step g₁ i).2).2.2
      have hstep : s.step g₁ i = s.step g₂ i :=
        step_ext s g₁ g₂ i (fun k hk1 hk2 => hagree k hk1 (by omega))
      have hrender : (s.step g₁ i).1.render g₁ (s.step g₁ i).2 =
          (s.step g₁ i).1.render g₂ (s.step g₁ i).2 :=
        render_ext (s.step g₁ i).1 g₁ g₂ (s.step g₁ i).2
          (fun k hk1 hk2 => hagree k (by omega) (by omega))
      have hrest : runShowAux g₁ m ((s.step g₁ i).1.render g₁ (s.step g₁ i).2).2.1
            ((s.step g₁ i).1.render g₁ (s.step g₁ i).2).2.2 =
          runShowAux g₂ m ((s.step g₁ i).1.render g₁ (s.step g₁ i).2).2.1
            ((s.step g₁ i).1.render g₁ (s.step g₁ i).2).2.2 :=
        ih _ _ (fun k hk1 hk2 => hagree k (by omega) (by omega))
      rw [runShowAux, runShowAux, ← hstep, ← hrender, hrest]

/-- C6: a full run of the show is a deterministic function of the
parameters and of the draws it consumes from the shared source, read
sequentially in a fixed order: any two draw streams that agree on the
consumed block [i, final index) produce byte-identical frame-string
lists and final positions.  Since seeding the shared source once at
startup fixes the entire draw stream, two runs with identical frames,
size and seed produce byte-identical frame sequences. -/
theorem c6_determinism (w h : ℤ) (frames : ℕ) (g₁ g₂ : ℕ → ℝ) (i : ℕ)
    (hagree : ∀ k, i ≤ k → k < (runShow w h frames g₁ i).2 → g₁ k = g₂ k) :
    runShow w h frames g₁ i = runShow w h frames g₂ i :=
  runShowAux_ext g₁ g₂ frames ⟨w, h, 0.12, 0.92, 120, [], 0⟩ i hagree

/-- C6 witness: the theorem applies at concrete parameters with two
(identical, hence agreeing) streams. -/
theorem c6_witness :
    runShow 3 3 1 (fun _ => 0) 0 = runShow 3 3 1 (fun _ => 0) 0 :=
  c6_determinism 3 3 1 (fun _ => 0) (fun _ => 0) 0 (fun _ _ _ => rfl)

/-- C9: the explicit size string 120x40 parses to exactly width 120 and
height 40 (and main builds the show from exactly that pair), while a
string that is neither auto nor a parseable WIDTHxHEIGHT pair, such as
bogus, produces the InvalidSizeArgument error (the ArgumentTypeError
message of the source), and a run with that flag fails before any frame
is rendered. -/
theorem c9_size_argument :
    (∀ term : ℤ × ℤ, detect_size term ("120x40") = Except.ok (120, 40)) ∧
    (∀ (term : ℤ × ℤ) (frames : ℕ) (g : ℕ → ℝ),
      mainModel term frames ("120x40") g = Except.ok (runShow 120 40 frames g 0).1) ∧
    (∀ term : ℤ × ℤ, detect_size term ("bogus") = Except.error sizeErrorMsg) ∧
    (∀ (term : ℤ × ℤ) (frames : ℕ) (g : ℕ → ℝ),
      mainModel term frames ("bogus") g = Except.error sizeErrorMsg) :=
  ⟨fun _ => rfl, fun _ _ _ => rfl, fun _ => rfl, fun _ _ _ => rfl⟩

/-- C10: any explicit (non-auto) size flag is handed verbatim to the
parse-only branch, whose result is returned with no further validation
(the width and height floors live only in the auto branch), so 0x0 and
-5x10 are accepted and yield non-positive canvas dimensions. -/
theorem c10_explicit_size_unvalidated :
    (∀ (term : ℤ × ℤ) (flag : String), flag ≠ "auto" →
      detect_size term flag = parseExplicitSize flag) ∧
    (∀ term : ℤ × ℤ, detect_size term ("0x0") = Except.ok (0, 0)) ∧
    (∀ term : ℤ × ℤ, detect_size term ("-5x10") = Except.ok (-5, 10)) ∧
    ¬ (0 < (0 : ℤ)) ∧ (-5 : ℤ) < 0 := by
  refine ⟨fun term flag hf => ?_, fun _ => rfl, fun _ => rfl, by norm_num, by norm_num⟩
  rw [detect_size, if_pos hf]

/-- C10 witness: the non-auto branch applies to the concrete flag 0x0
with the default terminal size. -/
theorem c10_witness :
    ("0x0" : String) ≠ "auto" ∧ detect_size (80, 24) "0x0" = parseExplicitSize ("0x0") :=
  ⟨by decide, c10_explicit_size_unvalidated.1 (80, 24) "0x0" (by decide)⟩

end CoolFireworks
